import Mathlib

/-!
Verification development for the claude-yes process-supervision core.

The Rust sources are embedded shallowly: each Rust function of interest is
translated into an executable Lean definition (structural recursion only,
with an explicit fuel argument where the Rust loop consumes a variable
number of elements, so that every definition reduces inside the kernel).
Machine strings are modelled as Lean `String` (a list of unicode scalar
values) together with an explicit UTF-8 byte-length function mirroring
Rust `str::len`; raw PTY bytes are `List Nat`.

Lower-casing is modelled as ASCII case mapping, which agrees with Rust
`str::to_lowercase` on all ASCII text (every pattern the detector
lower-cases is ASCII).
-/

namespace ClaudeYes

/-! ## utils.rs: remove_control_characters

The Rust function replaces, left to right, every match of the regex
`\x1B\[[0-9;]*[a-zA-Z]|[\x00-\x1F\x7F]` by the empty string.  The first
alternative is a complete ANSI CSI escape sequence, the second a single
control character (C0 controls and DEL).  Leftmost-first semantics: at an
ESC byte the full escape sequence is tried first; if it does not complete,
the ESC alone is removed as a control character and scanning resumes after
it (the bracket and parameter characters remain).
-/

/-- A character removed by the character-class alternative of the regex:
C0 controls (0x00 to 0x1F) and DEL (0x7F). -/
def isStrippedControl (c : Char) : Bool :=
  c.toNat ≤ 0x1F || c.toNat == 0x7F

/-- The character class `[a-zA-Z]` ending an ANSI escape sequence. -/
def isAnsiFinal (c : Char) : Bool :=
  ('a' ≤ c && c ≤ 'z') || ('A' ≤ c && c ≤ 'Z')

/-- The character class `[0-9;]` of ANSI parameter characters. -/
def isAnsiParam (c : Char) : Bool :=
  ('0' ≤ c && c ≤ '9') || c == ';'

/-- Consume `[0-9;]*[a-zA-Z]`; on success return the characters after the
final letter. -/
def consumeAnsiParams : List Char → Option (List Char)
  | [] => none
  | c :: rest =>
    if isAnsiParam c then consumeAnsiParams rest
    else if isAnsiFinal c then some rest
    else none

/-- After an ESC character, try to match `\[[0-9;]*[a-zA-Z]`. -/
def matchAnsiAfterEsc : List Char → Option (List Char)
  | [] => none
  | c :: rest => if c = '[' then consumeAnsiParams rest else none

/-- Fuel-indexed core of `remove_control_characters`; the fuel is an upper
bound on the number of regex matches and kept characters, so any fuel of at
least the length of the input gives the replace-all result. -/
def rccFuel : Nat → List Char → List Char
  | 0, cs => cs
  | _ + 1, [] => []
  | fuel + 1, c :: rest =>
    if c = '\x1B' then
      match matchAnsiAfterEsc rest with
      | some rest2 => rccFuel fuel rest2
      | none => rccFuel fuel rest
    else if isStrippedControl c then rccFuel fuel rest
    else c :: rccFuel fuel rest

/-- `remove_control_characters` on a list of characters. -/
def rccList (cs : List Char) : List Char := rccFuel cs.length cs

/-- utils.rs `remove_control_characters`: strip ANSI escape sequences and
control characters. -/
def remove_control_characters (s : String) : String :=
  String.mk (rccList s.data)

/-! ## String byte lengths and character classes

Rust `String::len` is the UTF-8 byte count; `char::len_utf8` the byte
count of one scalar value; `char::is_control` is true exactly for the
unicode Cc category (0x00 to 0x1F and 0x7F to 0x9F). -/

/-- Rust `char::len_utf8`. -/
def len_utf8 (c : Char) : Nat :=
  if c.toNat ≤ 0x7F then 1
  else if c.toNat ≤ 0x7FF then 2
  else if c.toNat ≤ 0xFFFF then 3
  else 4

/-- UTF-8 byte count of a character sequence. -/
def utf8Len : List Char → Nat
  | [] => 0
  | c :: cs => len_utf8 c + utf8Len cs

/-- Rust `str::len` / `String::len`: the UTF-8 byte count. -/
def strLen (s : String) : Nat := utf8Len s.data

/-- Rust `char::is_control`: the unicode Cc category. -/
def rustIsControl (c : Char) : Bool :=
  c.toNat ≤ 0x1F || (0x7F ≤ c.toNat && c.toNat ≤ 0x9F)

/-! ## terminal_render.rs: the bounded scrollback renderer -/

def MAX_LINES : Nat := 10000

def MAX_LINE_LENGTH : Nat := 4096

/-- terminal_render.rs `TerminalRender`: committed lines (oldest first)
plus the in-progress line. -/
structure TerminalRender where
  lines : List String
  current_line : String
deriving Repr, DecidableEq

def TerminalRender.new : TerminalRender := ⟨[], ""⟩

/-- `TerminalRender::push_line`: commit the current line, evicting the
oldest committed line when the buffer already holds `MAX_LINES` lines.
The current line itself is left unchanged (callers clear it). -/
def TerminalRender.push_line (t : TerminalRender) : TerminalRender :=
  ⟨(if MAX_LINES ≤ t.lines.length then t.lines.drop 1 else t.lines)
      ++ [t.current_line],
    t.current_line⟩

/-- One character of `TerminalRender::write`. -/
def TerminalRender.writeChar (t : TerminalRender) (c : Char) : TerminalRender :=
  if c = '\n' then
    { t.push_line with current_line := "" }
  else if c = '\r' then
    { t with current_line := "" }
  else if c = '\x08' ∨ c = '\x7f' then
    { t with current_line := String.mk t.current_line.data.dropLast }
  else if rustIsControl c then
    t
  else
    let t2 : TerminalRender :=
      { t with current_line := String.mk (t.current_line.data ++ [c]) }
    if MAX_LINE_LENGTH < strLen t2.current_line then
      { t2.push_line with current_line := "" }
    else t2

/-- `TerminalRender::write`: consume a decoded chunk character by
character. -/
def TerminalRender.write (t : TerminalRender) (text : String) : TerminalRender :=
  text.data.foldl TerminalRender.writeChar t

/-- `TerminalRender::render`: committed lines each followed by a newline,
then the in-progress line when non-empty. -/
def TerminalRender.render (t : TerminalRender) : String :=
  (t.lines.foldl (fun result line => result ++ line ++ "\n") "")
    ++ (if t.current_line.data.isEmpty then "" else t.current_line)

/-- `TerminalRender::clear`. -/
def TerminalRender.clear (_ : TerminalRender) : TerminalRender := ⟨[], ""⟩

/-- Feed a list of lines, each committed by a trailing newline. -/
def feedLines (t : TerminalRender) (ls : List String) : TerminalRender :=
  ls.foldl (fun acc l => acc.write (l ++ "\n")) t

/-! ## Substring search and ASCII lowercasing

Rust `str::contains` with a string pattern is plain substring search;
with a char pattern it is membership.  `str::to_lowercase` is modelled as
ASCII case mapping, which agrees with the Rust function on all ASCII text
(every pattern the detector applies to the lower-cased window is ASCII).
-/

/-- Whether `p` is a prefix of the text. -/
def hasPrefixC : List Char → List Char → Bool
  | [], _ => true
  | _ :: _, [] => false
  | p :: ps, c :: cs => p == c && hasPrefixC ps cs

/-- Whether `pat` occurs as a contiguous substring of the text. -/
def containsSubList (pat : List Char) : List Char → Bool
  | [] => pat.isEmpty
  | c :: rest => hasPrefixC pat (c :: rest) || containsSubList pat rest

/-- Rust `str::contains` with a string pattern. -/
def contains_str (s pat : String) : Bool := containsSubList pat.data s.data

/-- Rust `str::contains` with a char pattern. -/
def contains_char (s : String) (c : Char) : Bool := s.data.contains c

/-- ASCII lower-casing of one character. -/
def lowerAsciiChar (c : Char) : Char :=
  if 'A' ≤ c ∧ c ≤ 'Z' then Char.ofNat (c.toNat + 32) else c

/-- Rust `str::to_lowercase`, restricted to ASCII case mapping. -/
def to_lowercase (s : String) : String := String.mk (s.data.map lowerAsciiChar)

/-! ## claude_wrapper.rs: prompt detection

This is the body of the prompt check inside `process_output_with_responses`
(the rolling `output_buffer` window, the trigger condition, the signature
list, the response choice, the non-blocking enqueue and the sentinel
phrase check). -/

/-- The possible outcomes of `tokio::sync::mpsc::Sender::try_send`. -/
inductive QueueDisposition where
  | ok
  | full
  | closed
deriving Repr, DecidableEq

def patMenuYes : String := "❯ 1. Yes"

def patDarkMode : String := "❯ 1. Dark mode✔"

def patPressEnter : String := "Press Enter to continue…"

def patTrustProject : String := "trust this project"

def patTrustFiles : String := "trust the files in this folder"

def patAllowClaude : String := "allow claude"

def patDoYouWantTo : String := "do you want to"

def patWouldYouLike : String := "would you like"

def patYesWord : String := "yes"

def patNoWord : String := "no"

def patPointer : String := "❯"

def patBracketYN : String := "[y/n]"

def patParenYN : String := "(y/n)"

def patNoConversation : String := "No conversation found to continue"

/-- The two bracketed y/n signatures, tested on the clean text
(case-sensitively, as in the source). -/
def bracketedYN (clean_text : String) : Bool :=
  contains_str clean_text patBracketYN || contains_str clean_text patParenYN

/-- The full disjunction of prompt signatures from
`process_output_with_responses`. -/
def promptSignatureMatches (clean_text lower : String) : Bool :=
  contains_str clean_text patMenuYes
  || contains_str clean_text patDarkMode
  || contains_str clean_text patPressEnter
  || contains_str lower patTrustProject
  || contains_str lower patTrustFiles
  || contains_str lower patAllowClaude
  || contains_str lower patDoYouWantTo
  || contains_str lower patWouldYouLike
  || (contains_str lower patYesWord && contains_str lower patNoWord
        && contains_str clean_text patPointer)
  || bracketedYN clean_text

/-- The synthetic reply: `"y\n"` when the lower-cased window contains a
bracketed y/n form, else a bare carriage return. -/
def promptResponse (lower : String) : String :=
  if contains_str lower patBracketYN || contains_str lower patParenYN then "y\n"
  else "\r"

/-- The evaluation trigger: the fresh chunk contains a newline or the
window exceeds 100 bytes. -/
def promptTrigger (text output_buffer : String) : Bool :=
  contains_char text '\n' || 100 < strLen output_buffer

/-- Result of one append-and-evaluate pass of the detector. -/
structure DetectorResult where
  window : String
  sent : List String
  error_no_conversation : Bool
deriving Repr, DecidableEq

/-- One pass of the prompt detector: append the decoded chunk to the
window; when triggered, strip the window, test the signatures, choose the
response and attempt a non-blocking enqueue (clearing the window only on
success), and test the non-recoverable sentinel phrase. -/
def promptDetectorFeed (q : QueueDisposition) (window text : String) :
    DetectorResult :=
  let output_buffer := window ++ text
  if promptTrigger text output_buffer then
    let clean_text := remove_control_characters output_buffer
    let lower := to_lowercase clean_text
    let senti := contains_str clean_text patNoConversation
    if promptSignatureMatches clean_text lower then
      match q with
      | QueueDisposition.ok => ⟨"", [promptResponse lower], senti⟩
      | QueueDisposition.closed => ⟨output_buffer, [], senti⟩
      | QueueDisposition.full => ⟨output_buffer, [], senti⟩
    else ⟨output_buffer, [], senti⟩
  else ⟨output_buffer, [], false⟩

/-! ## UTF-8 decoding (Rust `String::from_utf8` validity prefix)

`utf8Decode` returns the longest valid prefix (as characters) and the
bytes from the first incomplete or invalid position on, matching the
`valid_up_to` split that `process_output_with_responses` uses. -/

/-- A UTF-8 continuation byte. -/
def isCont (b : Nat) : Bool := 0x80 ≤ b && b ≤ 0xBF

/-- Decode one scalar value from the front, or fail on an invalid or
incomplete sequence. -/
def utf8DecodeOne : List Nat → Option (Char × List Nat)
  | [] => none
  | b0 :: rest =>
    if b0 ≤ 0x7F then some (Char.ofNat b0, rest)
    else if 0xC2 ≤ b0 && b0 ≤ 0xDF then
      match rest with
      | b1 :: rest1 =>
        if isCont b1 then
          some (Char.ofNat ((b0 - 0xC0) * 64 + (b1 - 0x80)), rest1)
        else none
      | [] => none
    else if 0xE0 ≤ b0 && b0 ≤ 0xEF then
      match rest with
      | b1 :: b2 :: rest2 =>
        if (if b0 = 0xE0 then 0xA0 ≤ b1 && b1 ≤ 0xBF
            else if b0 = 0xED then 0x80 ≤ b1 && b1 ≤ 0x9F
            else isCont b1) && isCont b2 then
          some (Char.ofNat ((b0 - 0xE0) * 4096 + (b1 - 0x80) * 64 + (b2 - 0x80)),
            rest2)
        else none
      | _ => none
    else if 0xF0 ≤ b0 && b0 ≤ 0xF4 then
      match rest with
      | b1 :: b2 :: b3 :: rest3 =>
        if (if b0 = 0xF0 then 0x90 ≤ b1 && b1 ≤ 0xBF
            else if b0 = 0xF4 then 0x80 ≤ b1 && b1 ≤ 0x8F
            else isCont b1) && isCont b2 && isCont b3 then
          some (Char.ofNat ((b0 - 0xF0) * 262144 + (b1 - 0x80) * 4096
              + (b2 - 0x80) * 64 + (b3 - 0x80)), rest3)
        else none
      | _ => none
    else none

/-- Fuel-indexed decoding loop; any fuel of at least the byte count gives
the full longest-valid-prefix split. -/
def utf8DecodeFuel : Nat → List Nat → List Char × List Nat
  | 0, bs => ([], bs)
  | _ + 1, [] => ([], [])
  | fuel + 1, b :: bs =>
    match utf8DecodeOne (b :: bs) with
    | none => ([], b :: bs)
    | some (c, rest) =>
      let r := utf8DecodeFuel fuel rest
      (c :: r.1, r.2)

/-- Longest valid UTF-8 prefix and undecoded remainder. -/
def utf8Decode (bs : List Nat) : List Char × List Nat :=
  utf8DecodeFuel bs.length bs

/-- Rust `char` UTF-8 encoding (used to build concrete byte inputs). -/
def encodeChar (c : Char) : List Nat :=
  let n := c.toNat
  if n ≤ 0x7F then [n]
  else if n ≤ 0x7FF then [0xC0 + n / 64, 0x80 + n % 64]
  else if n ≤ 0xFFFF then
    [0xE0 + n / 4096, 0x80 + (n / 64) % 64, 0x80 + n % 64]
  else
    [0xF0 + n / 262144, 0x80 + (n / 4096) % 64, 0x80 + (n / 64) % 64,
      0x80 + n % 64]

/-- Rust `str::as_bytes`. -/
def as_bytes (s : String) : List Nat :=
  s.data.foldr (fun c acc => encodeChar c ++ acc) []

/-! ## ready_manager.rs: the sticky readiness gate

The flag is a boolean; `ready` (the signal operation) sets it, and is the
only operation ever applied during a run (`unready` is dead code).
`wait` is modelled by its completion behaviour: `some ()` means it
returns at once. -/

def ReadyManager.new : Bool := false

/-- `ReadyManager::ready`: set the flag, a no-op when already set. -/
def ReadyManager.ready (is_ready : Bool) : Bool :=
  if is_ready then is_ready else true

/-- `ReadyManager::wait`: returns immediately exactly when the flag is
already set; otherwise it suspends (modelled as `none`). -/
def ReadyManager.wait (is_ready : Bool) : Option Unit :=
  if is_ready then some () else none

/-! ## claude_wrapper.rs: one iteration of the output pump

The loop body of `process_output_with_responses` for one successful read:
combine carry-over bytes with the fresh bytes, decode the longest valid
prefix, and dispatch. -/

structure PumpState where
  incomplete_utf8 : List Nat
  output_buffer : String
  render : TerminalRender
  error_no_conversation : Bool
deriving Repr, DecidableEq

structure PumpOutput where
  state : PumpState
  responses : List String
  stdout_text : String
  signaled_ready : Bool
  pinged : Bool
deriving Repr, DecidableEq

/-- One iteration of the read loop of `process_output_with_responses`,
given the disposition the response queue would report. -/
def process_output_step (remove_ctl : Bool) (q : QueueDisposition)
    (st : PumpState) (bytes : List Nat) : PumpOutput :=
  let combined := st.incomplete_utf8 ++ bytes
  let dec := utf8Decode combined
  if dec.2.isEmpty then
    let text := String.mk dec.1
    let d := promptDetectorFeed q st.output_buffer text
    let buf2 :=
      if 10000 < strLen d.window then String.mk (d.window.data.drop 5000)
      else d.window
    ⟨⟨[], buf2, st.render.write text,
        st.error_no_conversation || d.error_no_conversation⟩,
      d.sent,
      if remove_ctl then remove_control_characters text else text,
      true, true⟩
  else if dec.1.isEmpty then
    ⟨⟨combined, st.output_buffer, st.render, st.error_no_conversation⟩,
      [], "", false, false⟩
  else
    let text := String.mk dec.1
    ⟨⟨dec.2, st.output_buffer ++ text, st.render.write text,
        st.error_no_conversation⟩,
      [],
      if remove_ctl then remove_control_characters text else text,
      true, true⟩

/-- The pump over a list of reads, threading the pump state and the
readiness flag (the flag is only ever touched through
`ReadyManager.ready`). -/
def pumpRun (remove_ctl : Bool) (q : QueueDisposition) :
    PumpState × Bool → List (List Nat) → PumpState × Bool
  | sb, [] => sb
  | (st, flag), bytes :: rest =>
    let o := process_output_step remove_ctl q st bytes
    pumpRun remove_ctl q
      (o.state, if o.signaled_ready then ReadyManager.ready flag else flag) rest

/-! ## claude_wrapper.rs: the supervisor loop `run_claude_process`

One session is summarised by the exit code the final `wait` reports
(`success()` holds exactly for code 0) and the value of the
`error_no_conversation` sentinel when the decision is taken. -/

inductive SupervisorResult where
  | exit (code : Nat)
  | restart (claude_args : List String)
deriving Repr, DecidableEq

/-- The decision at the bottom of the supervisor loop. -/
def run_claude_process_step (continue_on_crash : Bool) (code : Nat)
    (error_no_conversation : Bool) : SupervisorResult :=
  if code = 0 then SupervisorResult.exit 0
  else if continue_on_crash then
    if error_no_conversation then SupervisorResult.exit code
    else SupervisorResult.restart ["--continue", "continue"]
  else SupervisorResult.exit code

/-- The supervisor loop over a list of session outcomes (exit code and
sentinel value at decision time). -/
def run_claude_process (continue_on_crash : Bool) :
    List String → List (Nat × Bool) → Option Nat
  | _, [] => none
  | _, (code, senti) :: rest =>
    match run_claude_process_step continue_on_crash code senti with
    | SupervisorResult.exit c => some c
    | SupervisorResult.restart newArgs =>
      run_claude_process continue_on_crash newArgs rest

/-! ## Concrete inputs used by the scenario claims -/

def inputProceedMenu : String := "Do you want to proceed? ❯ 1. Yes"

def inputOverwriteYN : String := "Overwrite file? (y/n)"

def inputProceedMenuNl : String := "Do you want to proceed? ❯ 1. Yes\n"

def inputOverwriteYNNl : String := "Overwrite file? (y/n)\n"

def cleanUpperYN : String := "Overwrite? [Y/N]"

def inputUpperYNNl : String := "Overwrite? [Y/N]\n"

def inputPromptLine : String := "Do you want to proceed?\n"

/-- Bytes of a read whose valid prefix is `inputPromptLine` and whose
last byte starts an incomplete two-byte UTF-8 sequence. -/
def partialReadBytes : List Nat := as_bytes inputPromptLine ++ [0xC3]

def pumpState0 : PumpState := ⟨[], "", TerminalRender.new, false⟩

/-- A read of a single byte that is not a complete UTF-8 sequence. -/
def partialOnlyBytes : List Nat := [0xC3]

/-- A single-byte ASCII read. -/
def asciiRead : List Nat := [97]

/-- The bare-carriage-return auto-response. -/
def respEnter : String := "\r"

/-- The bracketed-form auto-response. -/
def respYes : String := "y\n"

/-- A clean sample text without control characters. -/
def cleanSample : String := "Red Text Normal"

/-- A sample window containing the lowercase paren y/n form. -/
def parenSample : String := "ok (y/n)"

/-- One printable character more than `MAX_LINE_LENGTH` bytes. -/
def longLine : String := String.mk (List.replicate 4097 'a')

def shortA : String := "a"

/-- More than `MAX_LINES` one-character lines. -/
def manyLines : List String := List.replicate 10001 shortA

/-! ## Supporting lemmas about the matcher -/

theorem consumeAnsiParams_length {cs rest : List Char}
    (h : consumeAnsiParams cs = some rest) : rest.length < cs.length := by
  induction cs with
  | nil => simp [consumeAnsiParams] at h
  | cons c cs ih =>
    simp only [consumeAnsiParams] at h
    split at h
    · exact Nat.lt_trans (ih h) (Nat.lt_succ_self _)
    · split at h
      · cases h; exact Nat.lt_succ_self _
      · cases h

theorem consumeAnsiParams_suffix {cs rest : List Char}
    (h : consumeAnsiParams cs = some rest) : rest <:+ cs := by
  induction cs with
  | nil => simp [consumeAnsiParams] at h
  | cons c cs ih =>
    simp only [consumeAnsiParams] at h
    split at h
    · exact (ih h).trans (List.suffix_cons c cs)
    · split at h
      · cases h; exact List.suffix_cons _ _
      · cases h

theorem matchAnsiAfterEsc_length {cs rest : List Char}
    (h : matchAnsiAfterEsc cs = some rest) : rest.length < cs.length := by
  cases cs with
  | nil => simp [matchAnsiAfterEsc] at h
  | cons c cs =>
    simp only [matchAnsiAfterEsc] at h
    split at h
    · exact Nat.lt_trans (consumeAnsiParams_length h) (Nat.lt_succ_self _)
    · cases h

theorem matchAnsiAfterEsc_suffix {cs rest : List Char}
    (h : matchAnsiAfterEsc cs = some rest) : rest <:+ cs := by
  cases cs with
  | nil => simp [matchAnsiAfterEsc] at h
  | cons c cs =>
    simp only [matchAnsiAfterEsc] at h
    split at h
    · exact (consumeAnsiParams_suffix h).trans (List.suffix_cons _ _)
    · cases h

/-- The fuel argument is irrelevant once it covers the input length. -/
theorem rccFuel_eq_of_le : ∀ (f g : Nat) (cs : List Char),
    cs.length ≤ f → cs.length ≤ g → rccFuel f cs = rccFuel g cs := by
  intro f
  induction f with
  | zero =>
    intro g cs hf _
    have : cs = [] := List.length_eq_zero.mp (Nat.le_zero.mp hf)
    subst this
    cases g <;> rfl
  | succ f ih =>
    intro g cs hf hg
    cases cs with
    | nil => cases g <;> rfl
    | cons c rest =>
      cases g with
      | zero => exact absurd hg (by simp)
      | succ g =>
        simp only [rccFuel]
        have hrest : rest.length ≤ f := by simpa using hf
        have hrest' : rest.length ≤ g := by simpa using hg
        split
        · cases hm : matchAnsiAfterEsc rest with
          | none => exact ih g rest hrest hrest'
          | some rest2 =>
            have h2 := matchAnsiAfterEsc_length hm
            exact ih g rest2 (Nat.le_of_lt (Nat.lt_of_lt_of_le h2 hrest))
              (Nat.le_of_lt (Nat.lt_of_lt_of_le h2 hrest'))
        · split
          · exact ih g rest hrest hrest'
          · rw [ih g rest hrest hrest']

/-- Unfolding equation for `rccList` on a cons cell. -/
theorem rccList_cons (c : Char) (rest : List Char) :
    rccList (c :: rest) =
      if c = '\x1B' then
        match matchAnsiAfterEsc rest with
        | some rest2 => rccList rest2
        | none => rccList rest
      else if isStrippedControl c then rccList rest
      else c :: rccList rest := by
  show rccFuel (rest.length + 1) (c :: rest) = _
  simp only [rccFuel]
  split
  · cases hm : matchAnsiAfterEsc rest with
    | none => rfl
    | some rest2 =>
      exact rccFuel_eq_of_le _ _ _
        (Nat.le_of_lt (matchAnsiAfterEsc_length hm)) (Nat.le_refl _)
  · rfl

/-- Every character surviving `rccList` is a non-control character. -/
theorem rccList_all_clean : ∀ cs : List Char,
    (rccList cs).all (fun c => !isStrippedControl c) = true := by
  have key : ∀ n, ∀ cs : List Char, cs.length ≤ n →
      (rccList cs).all (fun c => !isStrippedControl c) = true := by
    intro n
    induction n with
    | zero =>
      intro cs h
      have : cs = [] := List.length_eq_zero.mp (Nat.le_zero.mp h)
      subst this; rfl
    | succ n ih =>
      intro cs h
      cases cs with
      | nil => rfl
      | cons c rest =>
        have hrest : rest.length ≤ n := by simpa using h
        rw [rccList_cons]
        split
        · cases hm : matchAnsiAfterEsc rest with
          | none => exact ih rest hrest
          | some rest2 =>
            have h2 := matchAnsiAfterEsc_length hm
            exact ih rest2 (Nat.le_of_lt (Nat.lt_of_lt_of_le h2 hrest))
        · split
          · exact ih rest hrest
          · rename_i hesc hctl
            simp only [List.all_cons, Bool.and_eq_true]
            exact ⟨by simp [hctl], ih rest hrest⟩
  intro cs
  exact key cs.length cs (Nat.le_refl _)

/-- `rccList` only removes characters: its result is a subsequence of the
input, so the remaining characters keep their original order. -/
theorem rccList_sublist : ∀ cs : List Char, List.Sublist (rccList cs) cs := by
  have key : ∀ n, ∀ cs : List Char, cs.length ≤ n →
      List.Sublist (rccList cs) cs := by
    intro n
    induction n with
    | zero =>
      intro cs h
      have : cs = [] := List.length_eq_zero.mp (Nat.le_zero.mp h)
      subst this; exact List.Sublist.refl _
    | succ n ih =>
      intro cs h
      cases cs with
      | nil => exact List.Sublist.refl _
      | cons c rest =>
        have hrest : rest.length ≤ n := by simpa using h
        rw [rccList_cons]
        split
        · cases hm : matchAnsiAfterEsc rest with
          | none => exact (ih rest hrest).cons c
          | some rest2 =>
            have h2 := matchAnsiAfterEsc_length hm
            have hsub : List.Sublist (rccList rest2) rest2 :=
              ih rest2 (Nat.le_of_lt (Nat.lt_of_lt_of_le h2 hrest))
            exact ((hsub.trans (matchAnsiAfterEsc_suffix hm).sublist).cons c)
        · split
          · exact (ih rest hrest).cons c
          · exact (ih rest hrest).cons₂ c
  intro cs
  exact key cs.length cs (Nat.le_refl _)

/-- On input containing no control characters (hence no ESC and no ANSI
escape sequence), `rccList` is the identity. -/
theorem rccList_of_clean : ∀ cs : List Char,
    cs.all (fun c => !isStrippedControl c) = true → rccList cs = cs := by
  intro cs
  induction cs with
  | nil => intro _; rfl
  | cons c rest ih =>
    intro h
    simp only [List.all_cons, Bool.and_eq_true] at h
    rw [rccList_cons]
    have hesc : ¬(c = '\x1B') := by
      intro hc; subst hc; simp [isStrippedControl] at h
    rw [if_neg hesc]
    have hctl : isStrippedControl c = false := by
      cases hc : isStrippedControl c with
      | false => rfl
      | true => simp [hc] at h
    rw [hctl]
    simp only [Bool.false_eq_true, if_false]
    rw [ih h.2]

/-- `rccList` is idempotent. -/
theorem rccList_idem (cs : List Char) : rccList (rccList cs) = rccList cs :=
  rccList_of_clean _ (rccList_all_clean cs)

/-! ## Lemmas about UTF-8 byte lengths -/

theorem one_le_len_utf8 (c : Char) : 1 ≤ len_utf8 c := by
  unfold len_utf8
  split_ifs <;> omega

theorem utf8Len_append : ∀ a b : List Char,
    utf8Len (a ++ b) = utf8Len a + utf8Len b := by
  intro a b
  induction a with
  | nil => simp [utf8Len]
  | cons c cs ih => simp [utf8Len, ih, Nat.add_assoc]

theorem length_le_utf8Len : ∀ cs : List Char, cs.length ≤ utf8Len cs := by
  intro cs
  induction cs with
  | nil => exact Nat.le_refl 0
  | cons c cs ih =>
    have h1 := one_le_len_utf8 c
    simp only [List.length_cons, utf8Len]
    omega

theorem utf8Len_dropLast_le : ∀ cs : List Char,
    utf8Len cs.dropLast ≤ utf8Len cs := by
  intro cs
  induction cs with
  | nil => exact Nat.le_refl 0
  | cons c cs ih =>
    cases cs with
    | nil => simp [utf8Len, List.dropLast]
    | cons d ds =>
      have hdl : (c :: d :: ds).dropLast = c :: (d :: ds).dropLast := rfl
      rw [hdl]
      simp only [utf8Len]
      exact Nat.add_le_add_left ih _

/-! ## Lemmas about the scrollback renderer -/

/-- A character that is not a Rust control character differs from the
four specially handled characters. -/
theorem writeChar_plain {c : Char} (t : TerminalRender)
    (hc : rustIsControl c = false) :
    t.writeChar c =
      (let t2 : TerminalRender :=
        { t with current_line := String.mk (t.current_line.data ++ [c]) }
      if MAX_LINE_LENGTH < strLen t2.current_line then
        { t2.push_line with current_line := "" }
      else t2) := by
  have h1 : ¬(c = '\n') := by rintro rfl; revert hc; decide
  have h2 : ¬(c = '\r') := by rintro rfl; revert hc; decide
  have h3 : ¬(c = '\x08' ∨ c = '\x7f') := by
    rintro (rfl | rfl) <;> revert hc <;> decide
  simp only [TerminalRender.writeChar, if_neg h1, if_neg h2, if_neg h3, hc,
    Bool.false_eq_true, if_false]

/-- Writing a run of plain characters that keeps the current line within
`MAX_LINE_LENGTH` bytes just appends them to the current line. -/
theorem foldl_writeChar_plain : ∀ (cs : List Char) (t : TerminalRender),
    (∀ c ∈ cs, rustIsControl c = false) →
    utf8Len (t.current_line.data ++ cs) ≤ MAX_LINE_LENGTH →
    List.foldl TerminalRender.writeChar t cs =
      ⟨t.lines, String.mk (t.current_line.data ++ cs)⟩ := by
  intro cs
  induction cs with
  | nil =>
    intro t _ _
    simp
  | cons c cs ih =>
    intro t hclean hlen
    have hc : rustIsControl c = false := hclean c (List.mem_cons_self c cs)
    simp only [List.foldl_cons]
    rw [writeChar_plain t hc]
    have hsize : ¬(MAX_LINE_LENGTH <
        strLen (String.mk (t.current_line.data ++ [c]))) := by
      simp only [strLen, utf8Len_append] at *
      simp only [utf8Len] at *
      omega
    simp only [if_neg hsize]
    rw [ih _ (fun d hd => hclean d (List.mem_cons_of_mem c hd))
      (by simpa [List.append_assoc, utf8Len_append, utf8Len] using hlen)]
    simp [List.append_assoc]

/-- Writing a plain line followed by a newline commits exactly that line,
with the eviction policy applied, and leaves the current line empty. -/
theorem write_line_commit (t : TerminalRender) (l : String)
    (hcur : t.current_line = "")
    (hclean : ∀ c ∈ l.data, rustIsControl c = false)
    (hlen : strLen l ≤ MAX_LINE_LENGTH) :
    t.write (l ++ "\n") =
      ⟨(if MAX_LINES ≤ t.lines.length then t.lines.drop 1 else t.lines)
          ++ [l], ""⟩ := by
  have hdata : (l ++ "\n").data = l.data ++ ['\n'] := rfl
  unfold TerminalRender.write
  rw [hdata, List.foldl_append]
  rw [foldl_writeChar_plain l.data t hclean
    (by simpa [hcur, strLen] using hlen)]
  simp [hcur, TerminalRender.writeChar, TerminalRender.push_line]

/-- The committed-lines content after feeding a list of plain lines:
exactly the most recent `MAX_LINES` of the previously committed lines and
the new ones, oldest evicted first. -/
theorem feedLines_formula : ∀ (ls : List String) (t : TerminalRender),
    (∀ l ∈ ls, (∀ c ∈ l.data, rustIsControl c = false)
        ∧ strLen l ≤ MAX_LINE_LENGTH) →
    t.current_line = "" → t.lines.length ≤ MAX_LINES →
    (feedLines t ls).lines =
        (t.lines ++ ls).drop (t.lines.length + ls.length - MAX_LINES)
      ∧ (feedLines t ls).current_line = "" := by
  intro ls
  induction ls with
  | nil =>
    intro t _ hcur hle
    have hz : t.lines.length - MAX_LINES = 0 := by omega
    simp [feedLines, hz, hcur]
  | cons l ls ih =>
    intro t hplain hcur hle
    have hstep := write_line_commit t l hcur
      (hplain l (List.mem_cons_self l ls)).1 (hplain l (List.mem_cons_self l ls)).2
    have hfeed : feedLines t (l :: ls) = feedLines (t.write (l ++ "\n")) ls := rfl
    rw [hfeed, hstep]
    by_cases hfull : MAX_LINES ≤ t.lines.length
    · have hn : t.lines.length = MAX_LINES := Nat.le_antisymm hle hfull
      rw [if_pos hfull]
      have hne : t.lines ≠ [] := by
        intro h0
        rw [h0] at hn
        simp [MAX_LINES] at hn
      obtain ⟨a, as, hcons⟩ := List.exists_cons_of_ne_nil hne
      have hM : MAX_LINES = 10000 := rfl
      have hlen2 : (t.lines.drop 1 ++ [l]).length ≤ MAX_LINES := by
        have hdl : (t.lines.drop 1 ++ [l]).length = t.lines.length - 1 + 1 := by
          simp
        omega
      have hrec := ih ⟨t.lines.drop 1 ++ [l], ""⟩
        (fun x hx => hplain x (List.mem_cons_of_mem l hx)) rfl hlen2
      refine ⟨?_, hrec.2⟩
      rw [hrec.1]
      rw [hcons] at hn ⊢
      have hd1 : (a :: as).drop 1 = as := rfl
      rw [hd1]
      have hMAX : as.length + 1 = MAX_LINES := by simpa using hn
      have hidx1 : (as ++ [l]).length + ls.length - MAX_LINES = ls.length := by
        have hL : (as ++ [l]).length = as.length + 1 := by simp
        omega
      have hidx2 : (a :: as).length + (l :: ls).length - MAX_LINES
          = ls.length + 1 := by
        have hL1 : (a :: as).length = as.length + 1 := by simp
        have hL2 : (l :: ls).length = ls.length + 1 := by simp
        omega
      rw [hidx1, hidx2]
      rw [List.cons_append, List.drop_succ_cons, List.append_assoc,
        List.singleton_append]
    · rw [if_neg hfull]
      have hlen2 : (t.lines ++ [l]).length ≤ MAX_LINES := by
        simp only [List.length_append, List.length_singleton]
        omega
      have hrec := ih ⟨t.lines ++ [l], ""⟩
        (fun x hx => hplain x (List.mem_cons_of_mem l hx)) rfl hlen2
      refine ⟨?_, hrec.2⟩
      rw [hrec.1]
      simp only [List.append_assoc, List.singleton_append]
      have hidx : (t.lines ++ [l]).length + ls.length - MAX_LINES
          = t.lines.length + (l :: ls).length - MAX_LINES := by
        have hL1 : (t.lines ++ [l]).length = t.lines.length + 1 := by simp
        have hL2 : (l :: ls).length = ls.length + 1 := by simp
        omega
      rw [hidx]

/-- Every committed line has character count at most
`MAX_LINE_LENGTH + 1`, and the in-progress line stays within
`MAX_LINE_LENGTH` bytes, whatever is written. -/
theorem writeChars_line_length : ∀ (cs : List Char) (t : TerminalRender),
    (∀ l ∈ t.lines, l.data.length ≤ MAX_LINE_LENGTH + 1) →
    utf8Len t.current_line.data ≤ MAX_LINE_LENGTH →
    (∀ l ∈ (List.foldl TerminalRender.writeChar t cs).lines,
        l.data.length ≤ MAX_LINE_LENGTH + 1)
      ∧ utf8Len (List.foldl TerminalRender.writeChar t cs).current_line.data
          ≤ MAX_LINE_LENGTH := by
  intro cs
  induction cs with
  | nil => intro t h1 h2; exact ⟨h1, h2⟩
  | cons c cs ih =>
    intro t h1 h2
    simp only [List.foldl_cons]
    have hevict : ∀ x ∈ (if MAX_LINES ≤ t.lines.length
        then t.lines.drop 1 else t.lines),
        x.data.length ≤ MAX_LINE_LENGTH + 1 := by
      intro x hx
      apply h1
      revert hx
      split
      · exact fun hx => List.drop_subset 1 t.lines hx
      · exact id
    by_cases hn : c = '\n'
    · subst hn
      have hw : t.writeChar '\n' = { t.push_line with current_line := "" } := rfl
      rw [hw]
      apply ih
      · intro x hx
        simp only [TerminalRender.push_line] at hx
        rcases List.mem_append.mp hx with hx | hx
        · exact hevict x hx
        · rcases List.mem_singleton.mp hx with rfl
          have := length_le_utf8Len t.current_line.data
          omega
      · simp [utf8Len]
    by_cases hr : c = '\r'
    · subst hr
      have hw : t.writeChar '\r' = { t with current_line := "" } := rfl
      rw [hw]
      apply ih
      · exact h1
      · simp [utf8Len]
    by_cases hb : c = '\x08' ∨ c = '\x7f'
    · have hw : t.writeChar c =
          { t with current_line := String.mk t.current_line.data.dropLast } := by
        simp only [TerminalRender.writeChar, if_neg hn, if_neg hr, if_pos hb]
      rw [hw]
      apply ih
      · exact h1
      · exact Nat.le_trans (utf8Len_dropLast_le _) h2
    by_cases hctl : rustIsControl c = true
    · have hw : t.writeChar c = t := by
        simp only [TerminalRender.writeChar, if_neg hn, if_neg hr, if_neg hb,
          hctl, if_true]
      rw [hw]
      exact ih t h1 h2
    · have hc : rustIsControl c = false := Bool.eq_false_iff.mpr hctl
      rw [writeChar_plain t hc]
      by_cases hsz : MAX_LINE_LENGTH <
          strLen (String.mk (t.current_line.data ++ [c]))
      · simp only [if_pos hsz, TerminalRender.push_line]
        apply ih
        · intro x hx
          simp only at hx
          rcases List.mem_append.mp hx with hx | hx
          · exact hevict x hx
          · rcases List.mem_singleton.mp hx with rfl
            simp only [List.length_append, List.length_singleton]
            have := length_le_utf8Len t.current_line.data
            omega
        · simp [utf8Len]
      · simp only [if_neg hsz]
        apply ih
        · exact h1
        · simp only [strLen, Nat.not_lt] at hsz
          exact hsz

theorem utf8Len_replicate_a : ∀ n : Nat, utf8Len (List.replicate n 'a') = n := by
  intro n
  induction n with
  | zero => rfl
  | succ n ih =>
    rw [List.replicate_succ]
    have h1 : len_utf8 'a' = 1 := rfl
    simp only [utf8Len, ih, h1]
    omega

/-! ## Claim C3 -/

/-- C3 counterexample: writing a single run of 4097 printable one-byte
characters commits one line of 4097 characters, which exceeds
MAX_LINE_LENGTH; the line is committed only after its length already
exceeds the limit. -/
theorem C3_counterexample :
    (TerminalRender.new.write longLine).lines = [longLine]
    ∧ MAX_LINE_LENGTH < longLine.length := by
  have hcln : ∀ c ∈ List.replicate 4096 'a', rustIsControl c = false := by
    intro c hc
    rw [List.eq_of_mem_replicate hc]
    decide
  have hln : utf8Len (TerminalRender.new.current_line.data
      ++ List.replicate 4096 'a') ≤ MAX_LINE_LENGTH := by
    show utf8Len ([] ++ List.replicate 4096 'a') ≤ MAX_LINE_LENGTH
    rw [List.nil_append, utf8Len_replicate_a]
    decide
  have h1 : List.foldl TerminalRender.writeChar TerminalRender.new
      (List.replicate 4096 'a')
      = ⟨[], String.mk (List.replicate 4096 'a')⟩ :=
    foldl_writeChar_plain (List.replicate 4096 'a') TerminalRender.new hcln hln
  have hsz : MAX_LINE_LENGTH < strLen (String.mk
      ((String.mk (List.replicate 4096 'a')).data ++ ['a'])) := by
    show MAX_LINE_LENGTH < utf8Len (List.replicate 4096 'a' ++ ['a'])
    rw [utf8Len_append, utf8Len_replicate_a]
    decide
  have hrep : List.replicate 4096 'a' ++ ['a'] = List.replicate 4097 'a' := by
    have h47 : (4097 : Nat) = 4096 + 1 := rfl
    rw [h47, ← List.replicate_succ']
  have h2 : List.foldl TerminalRender.writeChar
      ⟨[], String.mk (List.replicate 4096 'a')⟩ ['a']
      = ⟨[String.mk (List.replicate 4097 'a')], ""⟩ := by
    rw [List.foldl_cons, List.foldl_nil,
      writeChar_plain (c := 'a') ⟨[], String.mk (List.replicate 4096 'a')⟩
        (by decide)]
    show (if MAX_LINE_LENGTH < strLen (String.mk
        ((String.mk (List.replicate 4096 'a')).data ++ ['a'])) then _ else _) = _
    rw [if_pos hsz]
    show TerminalRender.mk
        ((if MAX_LINES ≤ ([] : List String).length
            then ([] : List String).drop 1 else [])
          ++ [String.mk (List.replicate 4096 'a' ++ ['a'])]) ""
      = ⟨[String.mk (List.replicate 4097 'a')], ""⟩
    rw [if_neg (by decide : ¬(MAX_LINES ≤ ([] : List String).length)), hrep,
      List.nil_append]
  have hsplit : longLine.data = List.replicate 4096 'a' ++ ['a'] := by
    show List.replicate 4097 'a' = List.replicate 4096 'a' ++ ['a']
    exact hrep.symm
  constructor
  · show (List.foldl TerminalRender.writeChar TerminalRender.new
      longLine.data).lines = [longLine]
    rw [hsplit, List.foldl_append, h1, h2]
    rfl
  · show MAX_LINE_LENGTH < (List.replicate 4097 'a').length
    rw [List.length_replicate]
    decide

/-- C3 (amended): after feeding more than MAX_LINES committed lines the
buffer retains exactly the most recent MAX_LINES of them, oldest evicted
first; and every committed line has character count at most
MAX_LINE_LENGTH + 1 (a line longer than MAX_LINE_LENGTH is split into
committed pieces of at most MAX_LINE_LENGTH + 1 characters, not
MAX_LINE_LENGTH as originally claimed). -/
theorem C3_amended_theorem :
    (∀ ls : List String,
      (∀ l ∈ ls, (∀ c ∈ l.data, rustIsControl c = false)
          ∧ strLen l ≤ MAX_LINE_LENGTH) →
      MAX_LINES < ls.length →
      (feedLines TerminalRender.new ls).lines
        = ls.drop (ls.length - MAX_LINES))
    ∧ (∀ s : String, ∀ l ∈ (TerminalRender.new.write s).lines,
        l.length ≤ MAX_LINE_LENGTH + 1) := by
  constructor
  · intro ls hplain _
    have hfl := feedLines_formula ls TerminalRender.new hplain rfl
      (Nat.zero_le _)
    rw [hfl.1]
    show (([] : List String) ++ ls).drop (0 + ls.length - MAX_LINES) = _
    rw [List.nil_append, Nat.zero_add]
  · intro s l hl
    have hinv := writeChars_line_length s.data TerminalRender.new
      (by intro x hx; exact absurd hx (List.not_mem_nil x))
      (Nat.zero_le _)
    exact hinv.1 l hl

theorem C3_amended_theorem_witness :
    ((∀ l ∈ manyLines, (∀ c ∈ l.data, rustIsControl c = false)
        ∧ strLen l ≤ MAX_LINE_LENGTH)
      ∧ MAX_LINES < manyLines.length)
    ∧ (feedLines TerminalRender.new manyLines).lines
        = manyLines.drop (manyLines.length - MAX_LINES)
    ∧ (∀ l ∈ (TerminalRender.new.write shortA).lines,
        l.length ≤ MAX_LINE_LENGTH + 1) := by
  have hplain : ∀ l ∈ manyLines, (∀ c ∈ l.data, rustIsControl c = false)
      ∧ strLen l ≤ MAX_LINE_LENGTH := by
    intro l hl
    rw [List.eq_of_mem_replicate hl]
    exact ⟨by decide, by decide⟩
  have hlen : MAX_LINES < manyLines.length := by
    show MAX_LINES < (List.replicate 10001 shortA).length
    rw [List.length_replicate]
    decide
  exact ⟨⟨hplain, hlen⟩, C3_amended_theorem.1 manyLines hplain hlen,
    C3_amended_theorem.2 shortA⟩

/-! ## Claim C4 -/

theorem render_foldl_data : ∀ (ls : List String) (r : String),
    (ls.foldl (fun acc line => acc ++ line ++ "\n") r).data
      = r.data ++ (ls.map (fun l => l.data ++ ['\n'])).flatten := by
  intro ls
  induction ls with
  | nil => intro r; simp
  | cons l ls ih =>
    intro r
    rw [List.foldl_cons, ih]
    have hd : (r ++ l ++ "\n").data = r.data ++ (l.data ++ ['\n']) := by
      show r.data ++ l.data ++ ['\n'] = r.data ++ (l.data ++ ['\n'])
      rw [List.append_assoc]
    rw [hd]
    simp [List.append_assoc]

/-- C4: write processes text character by character: newline commits the
current line with MAX_LINES eviction and clears it; carriage return clears
the current line; backspace and DEL remove the last character when there
is one; every other control character is dropped; every printable
character is appended (committing the line early when it exceeds
MAX_LINE_LENGTH bytes); and render returns the committed lines each
followed by a newline, then the in-progress line when non-empty. -/
theorem C4_write_render (t : TerminalRender) (s : String) (c1 c2 : Char)
    (h1 : rustIsControl c1 = true) (h1n : c1 ≠ '\n') (h1r : c1 ≠ '\r')
    (h1b : c1 ≠ '\x08') (h1d : c1 ≠ '\x7f')
    (h2 : rustIsControl c2 = false) :
    t.write s = s.data.foldl TerminalRender.writeChar t
    ∧ t.writeChar '\n' =
        ⟨(if MAX_LINES ≤ t.lines.length then t.lines.drop 1 else t.lines)
            ++ [t.current_line], ""⟩
    ∧ t.writeChar '\r' = ⟨t.lines, ""⟩
    ∧ t.writeChar '\x08' = ⟨t.lines, String.mk t.current_line.data.dropLast⟩
    ∧ t.writeChar '\x7f' = ⟨t.lines, String.mk t.current_line.data.dropLast⟩
    ∧ t.writeChar c1 = t
    ∧ t.writeChar c2 =
        (if MAX_LINE_LENGTH < utf8Len (t.current_line.data ++ [c2]) then
          ⟨(if MAX_LINES ≤ t.lines.length then t.lines.drop 1 else t.lines)
              ++ [String.mk (t.current_line.data ++ [c2])], ""⟩
        else ⟨t.lines, String.mk (t.current_line.data ++ [c2])⟩)
    ∧ t.render.data = (t.lines.map (fun l => l.data ++ ['\n'])).flatten
        ++ (if t.current_line.data.isEmpty then [] else t.current_line.data) := by
  refine ⟨rfl, rfl, rfl, rfl, rfl, ?_, ?_, ?_⟩
  · have hb : ¬(c1 = '\x08' ∨ c1 = '\x7f') := by
      rintro (h | h)
      · exact h1b h
      · exact h1d h
    simp only [TerminalRender.writeChar, if_neg h1n, if_neg h1r, if_neg hb,
      h1, if_true]
  · rw [writeChar_plain t h2]
    rfl
  · show ((t.lines.foldl (fun acc line => acc ++ line ++ "\n") "")
        ++ (if t.current_line.data.isEmpty then "" else t.current_line)).data
      = _
    have hd : ∀ a b : String, (a ++ b).data = a.data ++ b.data :=
      fun _ _ => rfl
    rw [hd, render_foldl_data]
    by_cases he : t.current_line.data.isEmpty
    · rw [if_pos he, if_pos he]
      simp
    · rw [if_neg he, if_neg he]
      simp

theorem C4_write_render_witness :
    (rustIsControl '\x07' = true ∧ ('\x07' : Char) ≠ '\n'
      ∧ ('\x07' : Char) ≠ '\r' ∧ ('\x07' : Char) ≠ '\x08'
      ∧ ('\x07' : Char) ≠ '\x7f' ∧ rustIsControl 'b' = false)
    ∧ ((⟨[shortA], shortA⟩ : TerminalRender).write shortA
        = shortA.data.foldl TerminalRender.writeChar ⟨[shortA], shortA⟩
      ∧ (⟨[shortA], shortA⟩ : TerminalRender).writeChar '\n' =
          ⟨(if MAX_LINES ≤ ([shortA] : List String).length
              then ([shortA] : List String).drop 1 else [shortA])
              ++ [shortA], ""⟩
      ∧ (⟨[shortA], shortA⟩ : TerminalRender).writeChar '\r' = ⟨[shortA], ""⟩
      ∧ (⟨[shortA], shortA⟩ : TerminalRender).writeChar '\x08'
          = ⟨[shortA], String.mk shortA.data.dropLast⟩
      ∧ (⟨[shortA], shortA⟩ : TerminalRender).writeChar '\x7f'
          = ⟨[shortA], String.mk shortA.data.dropLast⟩
      ∧ (⟨[shortA], shortA⟩ : TerminalRender).writeChar '\x07'
          = ⟨[shortA], shortA⟩
      ∧ (⟨[shortA], shortA⟩ : TerminalRender).writeChar 'b' =
          (if MAX_LINE_LENGTH < utf8Len (shortA.data ++ ['b']) then
            ⟨(if MAX_LINES ≤ ([shortA] : List String).length
                then ([shortA] : List String).drop 1 else [shortA])
                ++ [String.mk (shortA.data ++ ['b'])], ""⟩
          else ⟨[shortA], String.mk (shortA.data ++ ['b'])⟩)
      ∧ (⟨[shortA], shortA⟩ : TerminalRender).render.data
          = (([shortA] : List String).map (fun l => l.data ++ ['\n'])).flatten
            ++ (if shortA.data.isEmpty then [] else shortA.data)) :=
  ⟨⟨by decide, by decide, by decide, by decide, by decide, by decide⟩,
    C4_write_render ⟨[shortA], shortA⟩ shortA '\x07' 'b'
      (by decide) (by decide) (by decide) (by decide) (by decide) (by decide)⟩

/-! ## Claim C9 -/

/-- C9: remove_control_characters is the identity on every string that
contains no ANSI escape sequence and no control character, and it is
idempotent on all inputs. -/
theorem C9_rcc_identity_idempotent :
    (∀ s : String, s.data.all (fun c => !isStrippedControl c) = true →
      remove_control_characters s = s)
    ∧ (∀ s : String,
        remove_control_characters (remove_control_characters s)
          = remove_control_characters s) := by
  constructor
  · intro s h
    show String.mk (rccList s.data) = s
    rw [rccList_of_clean s.data h]
  · intro s
    show String.mk (rccList (String.mk (rccList s.data)).data)
      = String.mk (rccList s.data)
    rw [show (String.mk (rccList s.data)).data = rccList s.data from rfl]
    rw [rccList_idem]

theorem C9_rcc_identity_idempotent_witness :
    (cleanSample.data.all (fun c => !isStrippedControl c) = true)
    ∧ remove_control_characters cleanSample = cleanSample :=
  ⟨by decide, C9_rcc_identity_idempotent.1 cleanSample (by decide)⟩

/-! ## Claim C10 -/

/-- C10: for every input string, the output of remove_control_characters
contains no character in U+0000 to U+001F and no DEL, and the remaining
characters appear in their original order (the output is a subsequence of
the input). -/
theorem C10_rcc_no_control_sublist (s : String) :
    (remove_control_characters s).data.all
        (fun c => !isStrippedControl c) = true
    ∧ List.Sublist (remove_control_characters s).data s.data :=
  ⟨rccList_all_clean s.data, rccList_sublist s.data⟩

/-! ## Claim C2 -/

/-- C2: the supervisor loop: a child exit with status 0 terminates
returning exit code 0; a non-zero exit with continue_on_crash disabled
returns that failure code; a non-zero exit with continue_on_crash enabled
and the sentinel already set returns the failure code without any further
restart; a non-zero exit with continue_on_crash enabled and no sentinel
loops back with the argument list rewritten to the continue form. -/
theorem C2_supervisor_loop (coc : Bool) (args : List String) (code : Nat)
    (senti : Bool) (rest : List (Nat × Bool)) (hnz : code ≠ 0) :
    run_claude_process coc args ((0, senti) :: rest) = some 0
    ∧ run_claude_process false args ((code, senti) :: rest) = some code
    ∧ run_claude_process true args ((code, true) :: rest) = some code
    ∧ run_claude_process_step true code false
        = SupervisorResult.restart ["--continue", "continue"]
    ∧ run_claude_process true args ((code, false) :: rest)
        = run_claude_process true ["--continue", "continue"] rest := by
  refine ⟨?_, ?_, ?_, ?_, ?_⟩ <;>
    simp [run_claude_process, run_claude_process_step, hnz]

theorem C2_supervisor_loop_witness :
    (3 : Nat) ≠ 0
    ∧ (run_claude_process true [] ((0, false) :: []) = some 0
      ∧ run_claude_process false [] ((3, false) :: []) = some 3
      ∧ run_claude_process true [] ((3, true) :: []) = some 3
      ∧ run_claude_process_step true 3 false
          = SupervisorResult.restart ["--continue", "continue"]
      ∧ run_claude_process true [] ((3, false) :: [])
          = run_claude_process true ["--continue", "continue"] []) :=
  ⟨by decide, C2_supervisor_loop true [] 3 false [] (by decide)⟩

/-! ## Claim C8 -/

/-- Once true, the readiness flag stays true for the rest of the run. -/
theorem pumpRun_sticky : ∀ (reads : List (List Nat)) (remove_ctl : Bool)
    (q : QueueDisposition) (st : PumpState),
    (pumpRun remove_ctl q (st, true) reads).2 = true := by
  intro reads
  induction reads with
  | nil => intro _ _ _; rfl
  | cons r rs ih =>
    intro rc q st
    have hflag : (if (process_output_step rc q st r).signaled_ready
        then ReadyManager.ready true else true) = true := by
      split <;> rfl
    simp only [pumpRun, hflag]
    exact ih rc q _

/-- A pump iteration that decodes at least one character signals
readiness. -/
theorem process_output_step_signals (remove_ctl : Bool)
    (q : QueueDisposition) (st : PumpState) (bytes : List Nat)
    (hdec : (utf8Decode (st.incomplete_utf8 ++ bytes)).1 ≠ []) :
    (process_output_step remove_ctl q st bytes).signaled_ready = true := by
  have e1 : (utf8Decode (st.incomplete_utf8 ++ bytes)).1.isEmpty = false := by
    cases hx : (utf8Decode (st.incomplete_utf8 ++ bytes)).1 with
    | nil => exact absurd hx hdec
    | cons a as => rfl
  unfold process_output_step
  simp only [e1, Bool.false_eq_true, if_false]
  split
  · rfl
  · rfl

/-- C8: the readiness state is sticky: it starts false, is set true by the
signal operation when decoded text arrives, the signal operation is
idempotent, in every reachable state of a run the flag never returns to
false once true, and the wait operation completes immediately when the
flag is already true. -/
theorem C8_readiness_sticky (remove_ctl : Bool) (q : QueueDisposition)
    (st : PumpState) (bytes : List Nat) (reads : List (List Nat)) (b : Bool)
    (hdec : (utf8Decode (st.incomplete_utf8 ++ bytes)).1 ≠ []) :
    ReadyManager.new = false
    ∧ ReadyManager.ready false = true
    ∧ ReadyManager.ready (ReadyManager.ready b) = ReadyManager.ready b
    ∧ (process_output_step remove_ctl q st bytes).signaled_ready = true
    ∧ (pumpRun remove_ctl q (st, true) reads).2 = true
    ∧ ReadyManager.wait true = some () := by
  refine ⟨rfl, rfl, ?_, ?_, ?_, rfl⟩
  · cases b <;> rfl
  · exact process_output_step_signals remove_ctl q st bytes hdec
  · exact pumpRun_sticky reads remove_ctl q st

theorem C8_readiness_sticky_witness :
    (utf8Decode (pumpState0.incomplete_utf8 ++ asciiRead)).1 ≠ []
    ∧ (ReadyManager.new = false
      ∧ ReadyManager.ready false = true
      ∧ ReadyManager.ready (ReadyManager.ready false) = ReadyManager.ready false
      ∧ (process_output_step false QueueDisposition.ok pumpState0
          asciiRead).signaled_ready = true
      ∧ (pumpRun false QueueDisposition.ok (pumpState0, true) ([] : List (List Nat))).2 = true
      ∧ ReadyManager.wait true = some ()) :=
  ⟨by decide, C8_readiness_sticky false QueueDisposition.ok pumpState0
    asciiRead [] false (by decide)⟩

/-! ## Claim C1 -/

/-- C1 counterexample: fed as one decoded chunk into an otherwise empty
window, neither text triggers an evaluation (it has no newline and the
window stays at 100 bytes or less), so no response at all is enqueued:
the first scenario does not enqueue a bare carriage return and the second
does not enqueue a y plus line terminator. -/
theorem C1_counterexample :
    (promptDetectorFeed QueueDisposition.ok "" inputProceedMenu).sent = []
    ∧ ¬((promptDetectorFeed QueueDisposition.ok "" inputProceedMenu).sent
        = [respEnter])
    ∧ (promptDetectorFeed QueueDisposition.ok "" inputOverwriteYN).sent = []
    ∧ ¬((promptDetectorFeed QueueDisposition.ok "" inputOverwriteYN).sent
        = [respYes]) := by
  refine ⟨?_, ?_, ?_, ?_⟩ <;> decide

/-- C1 (amended): with a trailing newline, so that the newline-or-size
evaluation trigger fires, feeding the menu prompt text into the detector
over an empty window enqueues exactly one bare carriage return, and
feeding the bracketed y/n text enqueues exactly one y followed by a line
terminator; in both cases the window is cleared, so no second response is
enqueued for the same text. -/
theorem C1_amended_theorem :
    promptDetectorFeed QueueDisposition.ok "" inputProceedMenuNl
      = ⟨"", [respEnter], false⟩
    ∧ promptDetectorFeed QueueDisposition.ok "" inputOverwriteYNNl
      = ⟨"", [respYes], false⟩ := by
  refine ⟨?_, ?_⟩ <;> decide

/-! ## Claim C6 -/

/-- C6 counterexample: a window whose clean text contains the upper-case
bracketed form: the lower-cased copy contains the bracketed signature,
yet the bracketed-form test (which the source runs on the clean text,
case-sensitively) does not match, no signature matches, and feeding the
text (with a newline so the trigger fires) enqueues nothing. -/
theorem C6_counterexample :
    contains_str (to_lowercase cleanUpperYN) patBracketYN = true
    ∧ bracketedYN cleanUpperYN = false
    ∧ promptSignatureMatches cleanUpperYN (to_lowercase cleanUpperYN) = false
    ∧ (promptDetectorFeed QueueDisposition.ok "" inputUpperYNNl).sent = [] := by
  refine ⟨?_, ?_, ?_, ?_⟩ <;> decide

/-- C6 (amended): the bracketed forms are recognized case-sensitively,
not case-insensitively: a clean text containing the lowercase form [y/n]
or (y/n) matches the bracketed-form signature and hence the full
signature disjunction; upper-case variants do not trigger it. -/
theorem C6_amended_theorem (clean_text lower : String)
    (h : contains_str clean_text patBracketYN = true
        ∨ contains_str clean_text patParenYN = true) :
    bracketedYN clean_text = true
    ∧ promptSignatureMatches clean_text lower = true := by
  have hb : bracketedYN clean_text = true := by
    rcases h with h | h <;> simp [bracketedYN, h]
  exact ⟨hb, by simp [promptSignatureMatches, hb]⟩

theorem C6_amended_theorem_witness :
    (contains_str parenSample patBracketYN = true
      ∨ contains_str parenSample patParenYN = true)
    ∧ (bracketedYN parenSample = true
      ∧ promptSignatureMatches parenSample parenSample = true) :=
  ⟨by decide, C6_amended_theorem parenSample parenSample (by decide)⟩

/-! ## Claim C7 -/

/-- C7: on a prompt match the window is cleared exactly when the
non-blocking enqueue succeeds: with the queue accepting, the response is
enqueued and the window cleared; with the queue full, nothing is enqueued
and the window keeps the appended text, so the same match can retrigger;
with the queue closed, the response is silently suppressed and the window
also keeps the appended text. -/
theorem C7_enqueue_window_clear (w t : String)
    (htrig : promptTrigger t (w ++ t) = true)
    (hmatch : promptSignatureMatches (remove_control_characters (w ++ t))
        (to_lowercase (remove_control_characters (w ++ t))) = true) :
    promptDetectorFeed QueueDisposition.ok w t
      = ⟨"", [promptResponse (to_lowercase (remove_control_characters (w ++ t)))],
          contains_str (remove_control_characters (w ++ t)) patNoConversation⟩
    ∧ promptDetectorFeed QueueDisposition.full w t
      = ⟨w ++ t, [],
          contains_str (remove_control_characters (w ++ t)) patNoConversation⟩
    ∧ promptDetectorFeed QueueDisposition.closed w t
      = ⟨w ++ t, [],
          contains_str (remove_control_characters (w ++ t)) patNoConversation⟩ := by
  refine ⟨?_, ?_, ?_⟩ <;> simp [promptDetectorFeed, htrig, hmatch]

theorem C7_enqueue_window_clear_witness :
    (promptTrigger inputProceedMenuNl ("" ++ inputProceedMenuNl) = true
      ∧ promptSignatureMatches
          (remove_control_characters ("" ++ inputProceedMenuNl))
          (to_lowercase (remove_control_characters ("" ++ inputProceedMenuNl)))
          = true)
    ∧ (promptDetectorFeed QueueDisposition.ok "" inputProceedMenuNl
        = ⟨"", [promptResponse (to_lowercase
              (remove_control_characters ("" ++ inputProceedMenuNl)))],
            contains_str (remove_control_characters ("" ++ inputProceedMenuNl))
              patNoConversation⟩
      ∧ promptDetectorFeed QueueDisposition.full "" inputProceedMenuNl
        = ⟨"" ++ inputProceedMenuNl, [],
            contains_str (remove_control_characters ("" ++ inputProceedMenuNl))
              patNoConversation⟩
      ∧ promptDetectorFeed QueueDisposition.closed "" inputProceedMenuNl
        = ⟨"" ++ inputProceedMenuNl, [],
            contains_str (remove_control_characters ("" ++ inputProceedMenuNl))
              patNoConversation⟩) :=
  ⟨⟨by decide, by decide⟩,
    C7_enqueue_window_clear "" inputProceedMenuNl (by decide) (by decide)⟩

/-! ## Claim C5 -/

/-- C5 counterexample: a read whose carry-over forms a valid prefix (a
matching prompt line) followed by a trailing incomplete two-byte
sequence: dispatched exactly as a fully valid chunk the prompt evaluation
would enqueue a bare carriage return (as the fully-valid read of the same
prefix does), but the partial-decode branch skips prompt evaluation and
enqueues nothing, leaving the window with the appended text. -/
theorem C5_counterexample :
    (process_output_step false QueueDisposition.ok pumpState0
        partialReadBytes).responses = []
    ∧ (process_output_step false QueueDisposition.ok pumpState0
        partialReadBytes).state.output_buffer = inputPromptLine
    ∧ (process_output_step false QueueDisposition.ok pumpState0
        (as_bytes inputPromptLine)).responses = [respEnter]
    ∧ ¬((process_output_step false QueueDisposition.ok pumpState0
        partialReadBytes).responses = [respEnter]) := by
  refine ⟨?_, ?_, ?_, ?_⟩ <;> decide

/-- C5 (amended): on a read whose combined bytes decode to a non-empty
valid prefix with a non-empty undecoded remainder, the pump dispatches
the prefix to the renderer, appends it to the prompt window WITHOUT
evaluating the prompt signatures (no response can be enqueued), pings the
idle monitor, signals readiness and forwards the prefix to stdout
(stripped when configured), retaining exactly the undecoded suffix as
carry-over; when no bytes are valid it retains everything and dispatches
nothing. -/
theorem C5_amended_theorem (remove_ctl : Bool) (q : QueueDisposition)
    (st : PumpState) (bytes : List Nat) :
    ((utf8Decode (st.incomplete_utf8 ++ bytes)).1 ≠ [] →
      (utf8Decode (st.incomplete_utf8 ++ bytes)).2 ≠ [] →
      process_output_step remove_ctl q st bytes
        = ⟨⟨(utf8Decode (st.incomplete_utf8 ++ bytes)).2,
            st.output_buffer
              ++ String.mk (utf8Decode (st.incomplete_utf8 ++ bytes)).1,
            st.render.write
              (String.mk (utf8Decode (st.incomplete_utf8 ++ bytes)).1),
            st.error_no_conversation⟩,
          [],
          (if remove_ctl then
            remove_control_characters
              (String.mk (utf8Decode (st.incomplete_utf8 ++ bytes)).1)
          else String.mk (utf8Decode (st.incomplete_utf8 ++ bytes)).1),
          true, true⟩)
    ∧ ((utf8Decode (st.incomplete_utf8 ++ bytes)).1 = [] →
      (utf8Decode (st.incomplete_utf8 ++ bytes)).2 ≠ [] →
      process_output_step remove_ctl q st bytes
        = ⟨⟨st.incomplete_utf8 ++ bytes, st.output_buffer, st.render,
            st.error_no_conversation⟩, [], "", false, false⟩) := by
  constructor
  · intro h1 h2
    have e1 : (utf8Decode (st.incomplete_utf8 ++ bytes)).1.isEmpty = false := by
      cases hx : (utf8Decode (st.incomplete_utf8 ++ bytes)).1 with
      | nil => exact absurd hx h1
      | cons a as => rfl
    have e2 : (utf8Decode (st.incomplete_utf8 ++ bytes)).2.isEmpty = false := by
      cases hx : (utf8Decode (st.incomplete_utf8 ++ bytes)).2 with
      | nil => exact absurd hx h2
      | cons a as => rfl
    simp [process_output_step, e1, e2]
  · intro h1 h2
    have e1 : (utf8Decode (st.incomplete_utf8 ++ bytes)).1.isEmpty = true := by
      rw [h1]
      rfl
    have e2 : (utf8Decode (st.incomplete_utf8 ++ bytes)).2.isEmpty = false := by
      cases hx : (utf8Decode (st.incomplete_utf8 ++ bytes)).2 with
      | nil => exact absurd hx h2
      | cons a as => rfl
    simp [process_output_step, e1, e2]

theorem C5_amended_theorem_witness :
    ((utf8Decode (pumpState0.incomplete_utf8 ++ partialReadBytes)).1 ≠ []
      ∧ (utf8Decode (pumpState0.incomplete_utf8 ++ partialReadBytes)).2 ≠ []
      ∧ process_output_step false QueueDisposition.ok pumpState0
          partialReadBytes
        = ⟨⟨(utf8Decode (pumpState0.incomplete_utf8 ++ partialReadBytes)).2,
            pumpState0.output_buffer ++ String.mk
              (utf8Decode (pumpState0.incomplete_utf8 ++ partialReadBytes)).1,
            pumpState0.render.write (String.mk
              (utf8Decode (pumpState0.incomplete_utf8 ++ partialReadBytes)).1),
            pumpState0.error_no_conversation⟩,
          [],
          String.mk
            (utf8Decode (pumpState0.incomplete_utf8 ++ partialReadBytes)).1,
          true, true⟩)
    ∧ ((utf8Decode (pumpState0.incomplete_utf8 ++ partialOnlyBytes)).1 = []
      ∧ (utf8Decode (pumpState0.incomplete_utf8 ++ partialOnlyBytes)).2 ≠ []
      ∧ process_output_step false QueueDisposition.ok pumpState0
          partialOnlyBytes
        = ⟨⟨pumpState0.incomplete_utf8 ++ partialOnlyBytes,
            pumpState0.output_buffer, pumpState0.render,
            pumpState0.error_no_conversation⟩, [], "", false, false⟩) := by
  refine ⟨⟨by decide, by decide, ?_⟩, by decide, by decide, ?_⟩
  · exact (C5_amended_theorem false QueueDisposition.ok pumpState0
      partialReadBytes).1 (by decide) (by decide)
  · exact (C5_amended_theorem false QueueDisposition.ok pumpState0
      partialOnlyBytes).2 (by decide) (by decide)

end ClaudeYes
